import Mathlib

/-!
Verification of the PYPOWER `int2ext` module (src/pypower/int2ext.py).

The module converts a power-system case from internal (consecutive,
online-only) numbering back to external (original) numbering.  We give a
shallow embedding: numeric tables become `List (List Int)`, the case dict
and its `order` record become Lean structures, and every numpy indexing
operation that can raise becomes an `Option`/`Except` computation.  The
Python code mutates dictionaries in place; the embedding is functional, an
exception is modelled by `Except.error` (partial mutations made before an
exception are discarded, which no property below observes).  The embedding
models cases without registered extension callbacks (`userfcn`): the
callback runner is an external collaborator outside the scope of the spec.
-/

/-- A 2-D numeric table (numpy ndarray of numbers); identifier entries are
integers, payload entries are opaque integers. -/
abbrev Mat := List (List Int)

/-- Numpy index resolution for one axis of length `n`: a nonnegative index
must be `< n`; a negative index `i` wraps to `n + i`; anything else raises
(modelled as `none`). -/
def npIdx (n : Nat) (i : Int) : Option Nat :=
  if 0 ≤ i ∧ i < (n : Int) then some i.toNat
  else if -(n : Int) ≤ i ∧ i < 0 then some (i + n).toNat
  else none

/-- Row fetch `m[i, :]` — fetch one row by (possibly negative) index. -/
def getRow (m : Mat) (i : Int) : Option (List Int) :=
  (npIdx m.length i).bind m.get?

/-- Vector fetch `v[x]` for a 1-D vector `v` — numpy fancy indexing of a vector at one
position. -/
def npGetV (t : List Int) (x : Int) : Option Int :=
  (npIdx t.length x).bind t.get?

/-- Row selection `m[idx, :]` — numpy fancy row selection with an index list. -/
def getRows (m : Mat) (l : List Int) : Option Mat :=
  match l with
  | [] => some []
  | i :: is => do
      let r ← getRow m i
      let rs ← getRows m is
      pure (r :: rs)

/-- Row write `m[i, :] = r` — replace one row; numpy requires the assigned row to
have the row width of the target. -/
def setRow (m : Mat) (i : Int) (r : List Int) : Option Mat :=
  match npIdx m.length i with
  | none => none
  | some p =>
    match m.get? p with
    | none => none
    | some old => if old.length = r.length then some (m.set p r) else none

/-- Row assignment `m[idx, :] = b` — numpy fancy row assignment: the number of assigned
rows must match the number of indices; rows are written left to right
(later duplicates win, as in numpy). -/
def setRows (m : Mat) (l : List Int) (b : Mat) : Option Mat :=
  match l, b with
  | [], [] => some m
  | i :: is, r :: rs => do
      let m' ← setRow m i r
      setRows m' is rs
  | _, _ => none

/-- Column read `m[idx, c]` — read the entries of column `c` at the rows `idx`. -/
def getColAt (m : Mat) (l : List Int) (c : Nat) : Option (List Int) :=
  match l with
  | [] => some []
  | i :: is => do
      let r ← getRow m i
      let v ← r.get? c
      let vs ← getColAt m is c
      pure (v :: vs)

/-- Entry write `m[i, c] = v` — overwrite one entry. -/
def setEntry (m : Mat) (i : Int) (c : Nat) (v : Int) : Option Mat :=
  match npIdx m.length i with
  | none => none
  | some p =>
    match m.get? p with
    | none => none
    | some r => if c < r.length then some (m.set p (r.set c v)) else none

/-- Column assignment `m[idx, c] = vs` — numpy fancy assignment into one column. -/
def setColAt (m : Mat) (l : List Int) (c : Nat) (vs : List Int) : Option Mat :=
  match l, vs with
  | [], [] => some m
  | i :: is, v :: rest => do
      let m' ← setEntry m i c v
      setColAt m' is c rest
  | _, _ => none

/-- Vector fancy indexing `t[xs]` — map a list of values through a 1-D lookup vector
(`i2e[bus_ids]`). -/
def mapThru (t : List Int) (xs : List Int) : Option (List Int) :=
  match xs with
  | [] => some []
  | x :: rest => do
      let v ← npGetV t x
      let vs ← mapThru t rest
      pure (v :: vs)

/-- Modelled from the spec: fixed identifier column positions, defined in
the external index modules `bus_idx`, `gen_idx`, `brch_idx`, `idx_area`
(not under src/): the bus-id column of the bus table. -/
def BUS_I : Nat := 0

/-- Modelled from the spec: the generator-bus column of the gen table. -/
def GEN_BUS : Nat := 0

/-- Modelled from the spec: the from-bus column of the branch table. -/
def F_BUS : Nat := 0

/-- Modelled from the spec: the to-bus column of the branch table. -/
def T_BUS : Nat := 1

/-- Modelled from the spec: the reference-bus column of the areas table. -/
def PRICE_REF_BUS : Nat := 1

/-- Per-entity-class portion of the order record: `status.on` (the ordered
set of row positions that were online at forward-conversion time) and the
`i2e` internal-to-external map. -/
structure EntityOrd where
  status_on : List Int
  i2e : List Int
  deriving DecidableEq, Repr

/-- A snapshot dictionary (`order.int` / `order.ext`): table name to
matrix, Python-dict semantics via an association list. -/
structure Snap where
  entries : List (String × Mat)
  deriving DecidableEq, Repr

/-- Dict lookup on an association list. -/
def lookupA (l : List (String × Mat)) (k : String) : Option Mat :=
  match l with
  | [] => none
  | (k0, v0) :: rest => if k0 = k then some v0 else lookupA rest k

/-- Dict assignment on an association list: replace an existing key or
append at the end (Python dict update semantics for lookup purposes). -/
def insertA (l : List (String × Mat)) (k : String) (v : Mat) : List (String × Mat) :=
  match l with
  | [] => [(k, v)]
  | (k0, v0) :: rest =>
      if k0 = k then (k, v) :: rest
      else (k0, v0) :: insertA rest k v

/-- Dict lookup in a snapshot. -/
def Snap.lookup (s : Snap) (k : String) : Option Mat :=
  lookupA s.entries k

/-- Dict assignment in a snapshot. -/
def Snap.insert (s : Snap) (k : String) (v : Mat) : Snap :=
  ⟨insertA s.entries k v⟩

/-- The `order` record built by `ext2int` (spec section 3): the numbering
state, per-entity-class data for bus, gen, branch and optionally areas,
and the `int`/`ext` snapshot dictionaries. -/
structure OrderRec where
  state : String
  bus : EntityOrd
  gen : EntityOrd
  branch : EntityOrd
  areas : Option EntityOrd
  int : Snap
  ext : Option Snap
  deriving DecidableEq, Repr

/-- Modelled from the spec: the order record (spec section 3) carries the
entries `state`, `bus`, `gen`, `branch`, optionally `areas`, `int` and
`ext`, and nothing else; dictionary lookup of any other key raises
KeyError (modelled as `none`).  Used for the source's dynamic accesses
such as `o["ordering"]`. -/
def OrderRec.lookupEntity (o : OrderRec) (k : String) : Option EntityOrd :=
  if k = "bus" then some o.bus
  else if k = "gen" then some o.gen
  else if k = "branch" then some o.branch
  else if k = "areas" then o.areas
  else none

/-- A PYPOWER case dict: the core tables, the optional auxiliary tables
(`gencost`, `areas`, linear-constraint data `A`, `N`) and the optional
`order` record. -/
structure Case where
  bus : Mat
  gen : Mat
  branch : Mat
  gencost : Option Mat
  areas : Option Mat
  A : Option Mat
  N : Option Mat
  order : Option OrderRec
  deriving DecidableEq, Repr

/-- Lift a fallible dict/array access into `Except` with the Python
exception text. -/
def orErr {α : Type} (x : Option α) (msg : String) : Except String α :=
  match x with
  | some a => Except.ok a
  | none => Except.error msg

/-- The log message for a case without an `order` field
(`logger.error`, int2ext.py line 99). -/
def missingOrderMsg : String :=
  "int2ext: mpc does not have the order field required for conversion back to external numbering."

/-- The log message for a case already in external numbering
(`logger.error`, int2ext.py line 165). -/
def alreadyExternalMsg : String :=
  "int2ext: mpc claims it is already using external numbering."

/-- Result of the whole-case entry point: the log messages emitted plus
either the returned case or the Python exception raised. -/
structure RestoreOut where
  logs : List String
  out : Except String Case
  deriving Repr

/-- Column fix-up `m[idx, c] = i2e[m[idx, c]]` (int2ext.py lines 141-152):
the identifier entries of column `c` in the rows `idx` are remapped
through the vector `i2e`. -/
def fixCol (m : Mat) (idx : List Int) (c : Nat) (i2e : List Int) : Option Mat := do
  let vals ← getColAt m idx c
  let mapped ← mapThru i2e vals
  setColAt m idx c mapped

/-- Bus-table restore: `mpc["bus"][on, :] = o["int"]["bus"]` followed by
the BUS_I fix-up through `o["bus"]["i2e"]`. -/
def restoreBus (intBus extBus : Mat) (eo : EntityOrd) : Option Mat := do
  let b1 ← setRows extBus eo.status_on intBus
  fixCol b1 eo.status_on BUS_I eo.i2e

/-- Branch-table restore: scatter of the internal snapshot, then F_BUS and
T_BUS fix-ups through the bus `i2e` vector. -/
def restoreBranch (intBranch extBranch : Mat) (eo : EntityOrd) (busI2e : List Int) :
    Option Mat := do
  let b1 ← setRows extBranch eo.status_on intBranch
  let b2 ← fixCol b1 eo.status_on F_BUS busI2e
  fixCol b2 eo.status_on T_BUS busI2e

/-- Gen-table restore (int2ext.py lines 134-135, 148-150):
`mpc["gen"][on, :] = o["int"]["gen"][o["gen"]["i2e"], :]` — the internal
snapshot is indexed by the gen `i2e` permutation before scattering — then
the GEN_BUS fix-up through the bus `i2e` vector. -/
def restoreGen (intGen extGen : Mat) (eo : EntityOrd) (busI2e : List Int) :
    Option Mat := do
  let perm ← getRows intGen eo.i2e
  let g1 ← setRows extGen eo.status_on perm
  fixCol g1 eo.status_on GEN_BUS busI2e

/-- Areas-table restore: scatter of the internal snapshot, then the
PRICE_REF_BUS fix-up through the bus `i2e` vector. -/
def restoreAreas (intA extA : Mat) (eo : EntityOrd) (busI2e : List Int) :
    Option Mat := do
  let a1 ← setRows extA eo.status_on intA
  fixCol a1 eo.status_on PRICE_REF_BUS busI2e

/-- Access of `o["ext"]` with the KeyError it raises when absent. -/
def extOf (o : OrderRec) : Except String Snap :=
  orErr o.ext "KeyError: ext"

/-- The restored bus table of the whole-case path: read the ext snapshot,
scatter the internal table into it, fix identifiers. -/
def newBus (mpc : Case) (o : OrderRec) : Except String Mat := do
  let ext ← extOf o
  let eb ← orErr (ext.lookup "bus") "KeyError: ext bus"
  orErr (restoreBus mpc.bus eb o.bus) "IndexError: bus"

/-- The restored branch table of the whole-case path. -/
def newBranch (mpc : Case) (o : OrderRec) : Except String Mat := do
  let ext ← extOf o
  let eb ← orErr (ext.lookup "branch") "KeyError: ext branch"
  orErr (restoreBranch mpc.branch eb o.branch o.bus.i2e) "IndexError: branch"

/-- The restored gen table of the whole-case path. -/
def newGen (mpc : Case) (o : OrderRec) : Except String Mat := do
  let ext ← extOf o
  let eg ← orErr (ext.lookup "gen") "KeyError: ext gen"
  orErr (restoreGen mpc.gen eg o.gen o.bus.i2e) "IndexError: gen"

/-- The restored gencost table: when the case has one, it is simply
replaced by the cached external snapshot (int2ext.py lines 116-118);
no scatter and no identifier fix-up are applied to it. -/
def newGencost (mpc : Case) (o : OrderRec) : Except String (Option Mat) :=
  match mpc.gencost with
  | none => Except.ok none
  | some _ => do
      let ext ← extOf o
      let e ← orErr (ext.lookup "gencost") "KeyError: ext gencost"
      pure (some e)

/-- The restored areas table: snapshot swap plus scatter and fix-up
(int2ext.py lines 119-121, 136-138, 151-153), gated on the case having an
areas table. -/
def newAreas (mpc : Case) (o : OrderRec) : Except String (Option Mat) :=
  match mpc.areas with
  | none => Except.ok none
  | some a => do
      let ext ← extOf o
      let ea ← orErr (ext.lookup "areas") "KeyError: ext areas"
      let aeo ← orErr o.areas "KeyError: order areas"
      let a2 ← orErr (restoreAreas a ea aeo o.bus.i2e) "IndexError: areas"
      pure (some a2)

/-- The restored `A` matrix: snapshot swap only (int2ext.py lines 122-124). -/
def newA (mpc : Case) (o : OrderRec) : Except String (Option Mat) :=
  match mpc.A with
  | none => Except.ok none
  | some _ => do
      let ext ← extOf o
      let e ← orErr (ext.lookup "A") "KeyError: ext A"
      pure (some e)

/-- The restored `N` matrix: snapshot swap only (int2ext.py lines 125-127). -/
def newN (mpc : Case) (o : OrderRec) : Except String (Option Mat) :=
  match mpc.N with
  | none => Except.ok none
  | some _ => do
      let ext ← extOf o
      let e ← orErr (ext.lookup "N") "KeyError: ext N"
      pure (some e)

/-- The updated `order.int` snapshot dictionary: the internal-numbering
tables are cached under their names, in source order (bus, branch, gen,
then gencost, areas, A, N when present). -/
def newInt (mpc : Case) (o : OrderRec) : Snap :=
  let s0 := ((o.int.insert "bus" mpc.bus).insert "branch" mpc.branch).insert "gen" mpc.gen
  let s1 := match mpc.gencost with
            | some g => s0.insert "gencost" g
            | none => s0
  let s2 := match mpc.areas with
            | some a => s1.insert "areas" a
            | none => s1
  let s3 := match mpc.A with
            | some m => s2.insert "A" m
            | none => s2
  match mpc.N with
  | some m => s3.insert "N" m
  | none => s3

/-- The successful body of the whole-case restore (int2ext.py lines
104-161): per-table restore, snapshot caching, deletion of `order.ext`
and the flip of `order.state` to external.  The source interleaves the
per-table scatters and the per-table identifier fix-ups; each table is
touched only by its own scatter and fix-up (reading only the bus `i2e`
vector besides), so the per-table grouping used here computes the same
tables.  The first exception raised aborts the computation. -/
def restoreBody (mpc : Case) (o : OrderRec) : Except String Case := do
  let nb ← newBus mpc o
  let nbr ← newBranch mpc o
  let ng ← newGen mpc o
  let ngc ← newGencost mpc o
  let na ← newAreas mpc o
  let nA ← newA mpc o
  let nN ← newN mpc o
  pure { mpc with
          bus := nb, branch := nbr, gen := ng,
          gencost := ngc, areas := na, A := nA, N := nN,
          order := some { o with state := "e", int := newInt mpc o, ext := none } }

/-- Whole-case entry point `int2ext(mpc)` (int2ext.py lines 97-166) for a
case without registered extension callbacks: a case without an `order`
field is logged as a configuration error and then the unguarded
`o = mpc["order"]` raises KeyError; a case already in external numbering
is logged and returned unchanged; an internal-numbering case runs the
restore body. -/
def int2extCase (mpc : Case) : RestoreOut :=
  match mpc.order with
  | none => ⟨[missingOrderMsg], Except.error "KeyError: order"⟩
  | some o =>
      if o.state = "i" then ⟨[], restoreBody mpc o⟩
      else ⟨[alreadyExternalMsg], Except.ok mpc⟩

/-- The external bus snapshot of the spec scenario (spec section 8): three
rows with ids 10, 20, 30. -/
def extBusC1 : Mat := [[10, 200],[20, 201],[30, 202]]

/-- The order record of the spec scenario: `order.bus.status.on = [0,2]`,
`order.bus.i2e = [10,30]`, empty gen and branch classes. -/
def ordC1 : OrderRec :=
  { state := "i"
  , bus := { status_on := [0, 2], i2e := [10, 30] }
  , gen := { status_on := [], i2e := [] }
  , branch := { status_on := [], i2e := [] }
  , areas := none
  , int := ⟨[]⟩
  , ext := some ⟨[("bus", extBusC1), ("branch", ([] : Mat)), ("gen", ([] : Mat))]⟩ }

/-- The spec-scenario case: a 2-row internal bus table with ids 0 and 1
(payloads 100 and 101). -/
def mpcC1 : Case :=
  { bus := [[0, 100],[1, 101]], gen := [], branch := []
  , gencost := none, areas := none, A := none, N := none
  , order := some ordC1 }

/-- The expected restored case of the spec scenario: ids 10, 20, 30; rows
0 and 2 carry the internal payloads 100 and 101 with the id column
rewritten through `bus.i2e`; row 1 is the untouched external row. -/
def mpcC1out : Case :=
  { bus := [[10, 100],[20, 201],[30, 101]], gen := [], branch := []
  , gencost := none, areas := none, A := none, N := none
  , order := some
      { state := "e"
      , bus := { status_on := [0, 2], i2e := [10, 30] }
      , gen := { status_on := [], i2e := [] }
      , branch := { status_on := [], i2e := [] }
      , areas := none
      , int := ⟨[("bus", [[0, 100],[1, 101]]), ("branch", []), ("gen", [])]⟩
      , ext := none } }

/-- A richer internal-numbering case used as concrete witness input: two
buses (external ids 10, 30 of a three-bus external table), two generators
whose internal order was permuted (`gen.i2e = [1,0]`), one online branch,
and a gencost table modified while in internal numbering. -/
def ordI : OrderRec :=
  { state := "i"
  , bus := { status_on := [0, 2], i2e := [10, 30] }
  , gen := { status_on := [0, 1], i2e := [1, 0] }
  , branch := { status_on := [1], i2e := [] }
  , areas := none
  , int := ⟨[]⟩
  , ext := some ⟨[("bus", [[10, 200],[20, 201],[30, 202]])
                , ("branch", [[10, 30, 700],[30, 20, 701]])
                , ("gen", [[10, 600],[30, 601]])
                , ("gencost", [[7, 7]])]⟩ }

/-- The witness case carrying `ordI`. -/
def mpcI : Case :=
  { bus := [[0, 100],[1, 101]]
  , gen := [[0, 500],[1, 501]]
  , branch := [[0, 1, 900]]
  , gencost := some [[9, 9]], areas := none, A := none, N := none
  , order := some ordI }

/-- The restored case produced from `mpcI`: gen rows un-permuted through
`gen.i2e` (payloads 501, 500 in that order), identifier columns rewritten
through `bus.i2e`, gencost replaced by its external snapshot. -/
def mpcIOut : Case :=
  { bus := [[10, 100],[20, 201],[30, 101]]
  , gen := [[30, 501],[10, 500]]
  , branch := [[10, 30, 700],[10, 30, 900]]
  , gencost := some [[7, 7]], areas := none, A := none, N := none
  , order := some
      { state := "e"
      , bus := { status_on := [0, 2], i2e := [10, 30] }
      , gen := { status_on := [0, 1], i2e := [1, 0] }
      , branch := { status_on := [1], i2e := [] }
      , areas := none
      , int := ⟨[("bus", [[0, 100],[1, 101]])
               , ("branch", [[0, 1, 900]])
               , ("gen", [[0, 500],[1, 501]])
               , ("gencost", [[9, 9]])]⟩
      , ext := none } }

/-- A case without an order record. -/
def noOrderCase : Case :=
  { bus := [[0, 1]], gen := [], branch := []
  , gencost := none, areas := none, A := none, N := none, order := none }

/-- An order record already in external numbering. -/
def ordE : OrderRec :=
  { state := "e"
  , bus := { status_on := [0], i2e := [10] }
  , gen := { status_on := [], i2e := [] }
  , branch := { status_on := [], i2e := [] }
  , areas := none, int := ⟨[]⟩, ext := none }

/-- A case already in external numbering. -/
def extCaseW : Case :=
  { bus := [[10, 1]], gen := [], branch := []
  , gencost := none, areas := none, A := none, N := none
  , order := some ordE }

/-- Modelled from the spec: the external row-reorder primitive gather
(`get_reorder`, spec section 2): vectorized row selection along the
chosen axis (axis 0 selects rows, axis 1 selects columns). -/
def colGather (val : Mat) (idx : List Int) : Option Mat :=
  match val with
  | [] => some []
  | r :: rs => do
      let r2 ← mapThru r idx
      let rs2 ← colGather rs idx
      pure (r2 :: rs2)

/-- Modelled from the spec: gather rows (axis 0) or columns (axis 1). -/
def get_reorder (val : Mat) (idx : List Int) (dim : Nat) : Option Mat :=
  if dim = 0 then getRows val idx
  else if dim = 1 then colGather val idx
  else none

/-- Scatter a list of values into one row at the given column indices. -/
def setRowEntries (base : List Int) (idx : List Int) (vs : List Int) :
    Option (List Int) :=
  match idx, vs with
  | [], [] => some base
  | i :: is, v :: rest =>
      match npIdx base.length i with
      | none => none
      | some p => setRowEntries (base.set p v) is rest
  | _, _ => none

/-- Column scatter: each row of `base` receives the entries of the
corresponding row of `rows` at the column indices `idx`. -/
def colScatter (base rows : Mat) (idx : List Int) : Option Mat :=
  match base, rows with
  | [], [] => some []
  | b :: bs, r :: rs => do
      let b2 ← setRowEntries b idx r
      let bs2 ← colScatter bs rs idx
      pure (b2 :: bs2)
  | _, _ => none

/-- Modelled from the spec: the external row-reorder primitive scatter
(`set_reorder`, spec section 2): insert the given rows into a copy of
`base` at the positions `idx` along the chosen axis. -/
def set_reorder (base rows : Mat) (idx : List Int) (dim : Nat) : Option Mat :=
  if dim = 0 then setRows base idx rows
  else if dim = 1 then colScatter base rows idx
  else none

/-- Raw-value conversion with a single ordering tag (int2ext.py lines
193-205): the source reads `o["ordering"]["i2e"]` and
`o["ordering"]["status"]["on"]` — the literal dictionary key `ordering`,
not the key named by the `ordering` argument — so the lookup raises
KeyError for every order record of the data model. -/
def int2extVal (mpc : Case) (val oldval : Mat) (ordering : String) (dim : Nat) :
    Except String Mat :=
  match mpc.order with
  | none => Except.error "KeyError: order"
  | some o =>
    if ordering = "gen" then
      match o.lookupEntity "ordering" with
      | none => Except.error "KeyError: ordering"
      | some e => do
          let v ← orErr (get_reorder val e.i2e dim) "IndexError: get_reorder"
          orErr (set_reorder oldval v e.status_on dim) "IndexError: set_reorder"
    else
      match o.lookupEntity "ordering" with
      | none => Except.error "KeyError: ordering"
      | some e => orErr (set_reorder oldval val e.status_on dim) "IndexError: set_reorder"

/-- Raw-value conversion with a composite ordering descriptor (int2ext.py
lines 206-221).  With a non-empty tag list, the first loop iteration
evaluates `o["ext"]["ordering"][k]` — again the literal key `ordering` —
which raises KeyError (were that key present, the next statement
`mpc["ordering"][k]` would raise KeyError on the case dict, and the
following `bi + range(ni)` a TypeError; `new_v` and `size` are never
defined).  With an empty tag list the loop is skipped and
`ni = size(val, dim)` raises NameError, `size` not being imported. -/
def int2extValMulti (mpc : Case) (val oldval : Mat) (ordering : List String)
    (dim : Nat) : Except String Mat :=
  match mpc.order with
  | none => Except.error "KeyError: order"
  | some o =>
    match ordering with
    | [] => Except.error "NameError: name size is not defined"
    | _ :: _ =>
      match extOf o with
      | Except.error e => Except.error e
      | Except.ok ext =>
        match ext.lookup "ordering" with
        | none => Except.error "KeyError: ordering"
        | some _ => Except.error "KeyError: ordering"

/-- A case observed as a plain dict by the named-field branch: its
top-level table entries and the `order.int` cache dict. -/
structure DictCase where
  tables : List (String × Mat)
  orderInt : List (String × Mat)
  deriving DecidableEq, Repr

/-- Named-field conversion with a single field name (int2ext.py lines
175-178).  The source executes
`mpc["order"]["int"]["field"] = mpc["field"]` — the literal key `field`,
not the field named by the argument — which raises KeyError unless the
case happens to contain a key literally called `field`; when it does, the
next statement reads `mpc["order"].ext`, attribute access on a dict,
which raises AttributeError.  (The cache write preceding the exception is
discarded by the `Except` model.) -/
def int2extField (mpc : DictCase) (field : String) (ordering : String)
    (dim : Nat) : Except String DictCase :=
  match lookupA mpc.tables "field" with
  | none => Except.error "KeyError: field"
  | some _ => Except.error "AttributeError: dict object has no attribute ext"

/-- True when any entry of the table is nonzero (`areas.any()`). -/
def anyNonzero (m : Mat) : Bool :=
  m.any (fun r => r.any (fun x => x != 0))

/-- Full-column read `m[:, c]` — read a full column. -/
def getColAll (m : Mat) (c : Nat) : Option (List Int) :=
  match m with
  | [] => some []
  | r :: rs => do
      let v ← r.get? c
      let vs ← getColAll rs c
      pure (v :: vs)

/-- Full-column write `m[:, c] = vs` — write a full column. -/
def setColAll (m : Mat) (c : Nat) (vs : List Int) : Option Mat :=
  match m, vs with
  | [], [] => some []
  | r :: rs, v :: rest =>
      if c < r.length then do
        let m2 ← setColAll rs c rest
        pure (r.set c v :: m2)
      else none
  | _, _ => none

/-- Full-column remap `m[:, c] = i2e[m[:, c]]` — remap a full identifier column through the
`i2e` vector. -/
def remapColAll (m : Mat) (c : Nat) (i2e : List Int) : Option Mat := do
  let vals ← getColAll m c
  let mapped ← mapThru i2e vals
  setColAll m c mapped

/-- Legacy direct form `int2ext(i2e, bus, gen, branch, areas)`
(int2ext.py lines 222-228): the identifier columns of bus, gen and branch
are remapped through `i2e`; the areas table is remapped only under the
source condition `areas is not None and branch is not None and not
areas.any()` — `branch` is never None at that point, having just been
indexed, so the condition reduces to the areas table being entirely
zero. -/
def int2extLegacy (i2e : List Int) (bus gen branch : Mat) (areas : Option Mat) :
    Option (Mat × Mat × Mat × Option Mat) := do
  let bus2 ← remapColAll bus BUS_I i2e
  let gen2 ← remapColAll gen GEN_BUS i2e
  let br1 ← remapColAll branch F_BUS i2e
  let br2 ← remapColAll br1 T_BUS i2e
  match areas with
  | some a =>
      if anyNonzero a then pure (bus2, gen2, br2, some a)
      else do
        let a2 ← remapColAll a PRICE_REF_BUS i2e
        pure (bus2, gen2, br2, some a2)
  | none => pure (bus2, gen2, br2, none)

/-- A dict-view case for the named-field branch, holding the usual tables
but no key literally called `field`. -/
def fieldCaseW : DictCase :=
  ⟨[("bus", [[0, 1]]), ("gen", [[0, 2]]), ("branch", [[0, 0, 3]])], []⟩

/-- A dict-view case that does contain a key literally called `field`. -/
def fieldCaseW2 : DictCase :=
  ⟨[("gen", [[0, 2]]), ("field", [[4]])], []⟩

/-- C1: whole-case restore on the concrete spec scenario
(`order.bus.status.on = [0,2]`, `order.bus.i2e = [10,30]`, 3-row external
bus table with ids 10, 20, 30, 2-row internal bus table with ids 0, 1)
returns the 3-row table with ids 10, 20, 30 in which rows 0 and 2 carry
the internal payload with the id column rewritten through `bus.i2e` and
row 1 is the untouched external row. -/
theorem restore_scenario_c1 : int2extCase mpcC1 = ⟨[], Except.ok mpcC1out⟩ := rfl

/-- C3 counterexample: on a concrete case without an `order` field the
whole-case entry point raises a KeyError after logging; it does not
return the case unmodified. -/
theorem missing_order_cex :
    (int2extCase noOrderCase).out = Except.error "KeyError: order" ∧
    (int2extCase noOrderCase).out ≠ Except.ok noOrderCase :=
  ⟨rfl, fun h => Except.noConfusion h⟩

/-- C3 (amended): for every case lacking an `order` field, the whole-case
entry point logs the configuration error and then raises a missing-key
error when the unguarded `o = mpc["order"]` runs; the case is not
returned. -/
theorem missing_order_logs_then_raises (mpc : Case) (h : mpc.order = none) :
    int2extCase mpc = ⟨[missingOrderMsg], Except.error "KeyError: order"⟩ := by
  unfold int2extCase
  rw [h]

/-- C3 witness: the amended statement at the concrete order-less case. -/
theorem missing_order_logs_then_raises_witness :
    int2extCase noOrderCase = ⟨[missingOrderMsg], Except.error "KeyError: order"⟩ :=
  missing_order_logs_then_raises noOrderCase rfl

/-- C6: the named-field conversion never caches `case[F]` into
`order.int.F` nor converts `case[F]`: the source reads the literal key
`field`, raising KeyError on a case without such a key, and on a case
with one it raises AttributeError on `mpc["order"].ext`; evaluated here
at field name `gen`. -/
theorem field_branch_literal_key_bug :
    int2extField fieldCaseW "gen" "gen" 1 = Except.error "KeyError: field" ∧
    int2extField fieldCaseW2 "gen" "gen" 1 =
      Except.error "AttributeError: dict object has no attribute ext" :=
  ⟨rfl, rfl⟩

/-- C7: raw-value conversion with a single ordering tag always raises:
the source looks up `o["ordering"]` — the literal key — which no order
record of the data model contains; evaluated at tags `bus` and `gen` on a
well-formed internal case. -/
theorem value_single_tag_literal_key_bug :
    int2extVal mpcI [[5]] [[6],[7]] "bus" 0 = Except.error "KeyError: ordering" ∧
    int2extVal mpcI [[5, 5]] [[6, 6],[7, 7]] "gen" 0 =
      Except.error "KeyError: ordering" :=
  ⟨rfl, rfl⟩

/-- C8: composite raw-value conversion never reaches the untouched-
remainder append: the first loop iteration raises KeyError on
`o["ext"]["ordering"]`; evaluated on a value with more rows than the
descriptor accounts for. -/
theorem value_multi_tag_crash_bug :
    int2extValMulti mpcI [[1],[2],[3],[4],[5],[6]] [[4],[5],[6],[7],[8],[9],[10]]
      ["bus", "gen"] 0 = Except.error "KeyError: ordering" :=
  rfl

/-- C9: in the legacy direct form the bus, gen and branch identifier
columns are remapped through `i2e`, but a non-None areas table with any
nonzero entry is returned unremapped (the source guards the areas remap
with `not areas.any()`): at `i2e = [5,7]` the areas row stays `[1,0]`
instead of the claimed `[1,5]`. -/
theorem legacy_areas_not_remapped_bug :
    int2extLegacy [5, 7] [[0],[1]] [[1]] [[0, 1]] (some [[1, 0]]) =
      some ([[5],[7]], [[7]], [[5, 7]], some [[1, 0]]) ∧
    (some [[(1 : Int), 0]] : Option Mat) ≠ some [[1, 5]] :=
  ⟨rfl, by decide⟩

/-- A successful `get?` implies the index is in bounds. -/
lemma get?_lt_length {α : Type} {l : List α} {k : Nat} {x : α}
    (h : l.get? k = some x) : k < l.length := by
  by_contra hk
  rw [List.get?_eq_none.mpr (by omega)] at h
  cases h

/-- Nonnegative in-bounds indices resolve to their `toNat`. -/
lemma npIdx_pos {n : Nat} {i : Int} (h0 : 0 ≤ i) (h1 : i < (n : Int)) :
    npIdx n i = some i.toNat := by
  unfold npIdx
  rw [if_pos ⟨h0, h1⟩]

/-- A nonnegative index that resolves successfully resolves to its
`toNat` and is in bounds. -/
lemma npIdx_pos_inv {n : Nat} {i : Int} {p : Nat} (h0 : 0 ≤ i)
    (h : npIdx n i = some p) : p = i.toNat ∧ i < (n : Int) := by
  unfold npIdx at h
  split at h
  · rename_i hc
    exact ⟨(Option.some.injEq _ _ ▸ h).symm, hc.2⟩
  · split at h
    · rename_i hc1 hc2
      omega
    · cases h

/-- Any successfully resolved index is in bounds. -/
lemma npIdx_lt {n : Nat} {i : Int} {p : Nat} (h : npIdx n i = some p) : p < n := by
  unfold npIdx at h
  split at h
  · rename_i hc
    cases h
    omega
  · split at h
    · rename_i hc1 hc2
      cases h
      omega
    · cases h

/-- Inversion of a successful single-row read. -/
lemma getRow_some {m : Mat} {i : Int} {r : List Int} (h : getRow m i = some r) :
    ∃ p, npIdx m.length i = some p ∧ m.get? p = some r := by
  unfold getRow at h
  cases hp : npIdx m.length i with
  | none => rw [hp] at h; cases h
  | some p => rw [hp] at h; exact ⟨p, rfl, h⟩

/-- Inversion of a successful single-row write. -/
lemma setRow_some {m : Mat} {i : Int} {r : List Int} {m' : Mat}
    (h : setRow m i r = some m') :
    ∃ p, npIdx m.length i = some p ∧ m' = m.set p r := by
  unfold setRow at h
  split at h
  · cases h
  · rename_i p hp
    split at h
    · cases h
    · split at h
      · cases h
        exact ⟨p, hp, rfl⟩
      · cases h

/-- Row writes preserve the row count. -/
lemma setRow_length {m : Mat} {i : Int} {r : List Int} {m' : Mat}
    (h : setRow m i r = some m') : m'.length = m.length := by
  obtain ⟨p, _, rfl⟩ := setRow_some h
  exact List.length_set m p r

/-- Fancy row assignment preserves the row count. -/
lemma setRows_length {l : List Int} {b : Mat} {m m' : Mat}
    (h : setRows m l b = some m') : m'.length = m.length := by
  induction l generalizing b m with
  | nil =>
    cases b with
    | nil => cases h; rfl
    | cons r rs => cases h
  | cons i is ih =>
    cases b with
    | nil => cases h
    | cons r rs =>
      simp only [setRows, Option.bind_eq_bind, bind, Option.bind] at h
      cases hm : setRow m i r with
      | none => rw [hm] at h; cases h
      | some m1 =>
        rw [hm] at h
        exact (ih h).trans (setRow_length hm)

/-- A successful fancy row assignment resolved every index. -/
lemma setRows_resolves {l : List Int} {b : Mat} {m m' : Mat} {k : Nat} {i : Int}
    (h : setRows m l b = some m') (hk : l.get? k = some i) :
    ∃ p, npIdx m.length i = some p := by
  induction l generalizing b m k with
  | nil => cases hk
  | cons i0 is ih =>
    cases b with
    | nil => cases h
    | cons r rs =>
      simp only [setRows, Option.bind_eq_bind, bind, Option.bind] at h
      cases hm : setRow m i0 r with
      | none => rw [hm] at h; cases h
      | some m1 =>
        rw [hm] at h
        cases k with
        | zero =>
          cases hk
          obtain ⟨p, hp, _⟩ := setRow_some hm
          exact ⟨p, hp⟩
        | succ k' =>
          have := ih (m := m1) h hk
          rwa [setRow_length hm] at this

/-- Rows whose position no index of the assignment resolves to are left
unchanged by a fancy row assignment. -/
lemma setRows_untouched {l : List Int} {b : Mat} {m m' : Mat} {p : Nat}
    (h : setRows m l b = some m')
    (hdisj : ∀ k2 i2, l.get? k2 = some i2 → npIdx m.length i2 ≠ some p) :
    m'.get? p = m.get? p := by
  induction l generalizing b m with
  | nil =>
    cases b with
    | nil => cases h; rfl
    | cons r rs => cases h
  | cons i0 is ih =>
    cases b with
    | nil => cases h
    | cons r rs =>
      simp only [setRows, Option.bind_eq_bind, bind, Option.bind] at h
      cases hm : setRow m i0 r with
      | none => rw [hm] at h; cases h
      | some m1 =>
        rw [hm] at h
        obtain ⟨p0, hp0, rfl⟩ := setRow_some hm
        have hlen : (m.set p0 r).length = m.length := List.length_set m p0 r
        have hne : p0 ≠ p := fun he => hdisj 0 i0 rfl (he ▸ hp0)
        have htail : ∀ k2 i2, is.get? k2 = some i2 →
            npIdx (m.set p0 r).length i2 ≠ some p := by
          intro k2 i2 hk2
          rw [hlen]
          exact hdisj (k2 + 1) i2 (by simpa using hk2)
        rw [ih h htail]
        exact List.get?_set_ne r m hne

/-- The row written at step `k` of a fancy row assignment lands at the
resolved position of index `k`, provided no other index resolves to the
same position. -/
lemma setRows_get {l : List Int} {b : Mat} {m m' : Mat} {k : Nat} {i : Int} {p : Nat}
    (h : setRows m l b = some m') (hk : l.get? k = some i)
    (hp : npIdx m.length i = some p)
    (hdisj : ∀ k2 i2, l.get? k2 = some i2 → npIdx m.length i2 = some p → k2 = k) :
    m'.get? p = b.get? k := by
  induction l generalizing b m k with
  | nil => cases hk
  | cons i0 is ih =>
    cases b with
    | nil => cases h
    | cons r rs =>
      simp only [setRows, Option.bind_eq_bind, bind, Option.bind] at h
      cases hm : setRow m i0 r with
      | none => rw [hm] at h; cases h
      | some m1 =>
        rw [hm] at h
        obtain ⟨p0, hp0, rfl⟩ := setRow_some hm
        have hlen : (m.set p0 r).length = m.length := List.length_set m p0 r
        cases k with
        | zero =>
          cases hk
          have hpp : p0 = p := by
            rw [hp0] at hp
            exact Option.some.injEq _ _ ▸ hp
          subst hpp
          have htail : ∀ k2 i2, is.get? k2 = some i2 →
              npIdx (m.set p0 r).length i2 ≠ some p0 := by
            intro k2 i2 hk2 hcon
            rw [hlen] at hcon
            have : k2 + 1 = 0 := hdisj (k2 + 1) i2 (by simpa using hk2) hcon
            cases this
          rw [setRows_untouched h htail]
          exact List.get?_set_eq_of_lt r (npIdx_lt hp0)
        | succ k' =>
          rw [List.get?_cons_succ] at hk
          have hne : p0 ≠ p := by
            intro he
            subst he
            have : (0 : Nat) = k' + 1 := hdisj 0 i0 rfl hp0
            cases this
          have hdisj' : ∀ k2 i2, is.get? k2 = some i2 →
              npIdx (m.set p0 r).length i2 = some p → k2 = k' := by
            intro k2 i2 hk2 hp2
            rw [hlen] at hp2
            have := hdisj (k2 + 1) i2 (by simpa using hk2) hp2
            omega
          have hp' : npIdx (m.set p0 r).length i = some p := by rw [hlen]; exact hp
          rw [List.get?_cons_succ]
          exact ih h hk hp' hdisj'

/-- The rows read by a fancy row selection are the rows at the selected
indices. -/
lemma getRows_get {m : Mat} {l : List Int} {rs : Mat} {k : Nat} {i : Int}
    (h : getRows m l = some rs) (hk : l.get? k = some i) :
    ∃ r, getRow m i = some r ∧ rs.get? k = some r := by
  induction l generalizing rs k with
  | nil => cases hk
  | cons i0 is ih =>
    simp only [getRows, Option.bind_eq_bind, bind, Option.bind] at h
    cases hr : getRow m i0 with
    | none => rw [hr] at h; cases h
    | some r0 =>
      rw [hr] at h
      cases hrs : getRows m is with
      | none => rw [hrs] at h; cases h
      | some rs0 =>
        rw [hrs] at h
        cases h
        cases k with
        | zero =>
          cases hk
          exact ⟨r0, hr, rfl⟩
        | succ k' =>
          rw [List.get?_cons_succ] at hk ⊢
          exact ih hrs hk

/-- Inversion of a successful single-entry write. -/
lemma setEntry_some {m : Mat} {i : Int} {c : Nat} {v : Int} {m' : Mat}
    (h : setEntry m i c v = some m') :
    ∃ p r, npIdx m.length i = some p ∧ m.get? p = some r ∧
      m' = m.set p (r.set c v) := by
  unfold setEntry at h
  split at h
  · cases h
  · rename_i p hp
    split at h
    · cases h
    · rename_i r hr
      split at h
      · cases h
        exact ⟨p, r, hp, hr, rfl⟩
      · cases h

/-- A column assignment leaves every entry outside the written column
unchanged, in every row. -/
lemma setColAt_other {l : List Int} {vs : List Int} {m m' : Mat} {c : Nat}
    (h : setColAt m l c vs = some m') :
    ∀ p col, col ≠ c →
      ((m'.get? p).bind fun r => r.get? col) =
        ((m.get? p).bind fun r => r.get? col) := by
  induction l generalizing vs m with
  | nil =>
    cases vs with
    | nil => cases h; intro p col _; rfl
    | cons v rest => cases h
  | cons i0 is ih =>
    cases vs with
    | nil => cases h
    | cons v rest =>
      simp only [setColAt, Option.bind_eq_bind] at h
      cases hm : setEntry m i0 c v with
      | none => rw [hm] at h; simp only [Option.none_bind] at h; cases h
      | some m1 =>
        rw [hm] at h
        simp only [Option.some_bind] at h
        intro p col hcol
        rw [ih h p col hcol]
        obtain ⟨p0, r0, hp0, hr0, rfl⟩ := setEntry_some hm
        by_cases hpe : p0 = p
        · subst hpe
          rw [List.get?_set_eq_of_lt _ (get?_lt_length hr0), hr0]
          simp only [Option.some_bind]
          exact List.get?_set_ne v r0 (fun he => hcol he.symm)
        · rw [List.get?_set_ne _ m hpe]

/-- The identifier fix-up leaves every entry outside the fixed column
unchanged, in every row. -/
lemma fixCol_other {m : Mat} {idx : List Int} {c : Nat} {i2e : List Int} {m' : Mat}
    (h : fixCol m idx c i2e = some m') :
    ∀ p col, col ≠ c →
      ((m'.get? p).bind fun r => r.get? col) =
        ((m.get? p).bind fun r => r.get? col) := by
  simp only [fixCol, Option.bind_eq_bind] at h
  cases h1 : getColAt m idx c with
  | none => rw [h1] at h; simp only [Option.none_bind] at h; cases h
  | some vals =>
    rw [h1] at h
    simp only [Option.some_bind] at h
    cases h2 : mapThru i2e vals with
    | none => rw [h2] at h; simp only [Option.none_bind] at h; cases h
    | some mapped =>
      rw [h2] at h
      simp only [Option.some_bind] at h
      exact setColAt_other h


/-- Inversion of a successful gen-table restore: the permuted internal
snapshot, the scatter result and the fix-up are all recoverable. -/
lemma restoreGen_some {intGen extGen : Mat} {eo : EntityOrd} {busI2e : List Int}
    {g : Mat} (h : restoreGen intGen extGen eo busI2e = some g) :
    ∃ perm g1, getRows intGen eo.i2e = some perm ∧
      setRows extGen eo.status_on perm = some g1 ∧
      fixCol g1 eo.status_on GEN_BUS busI2e = some g := by
  simp only [restoreGen, Option.bind_eq_bind] at h
  cases h1 : getRows intGen eo.i2e with
  | none => rw [h1] at h; simp only [Option.none_bind] at h; cases h
  | some perm =>
    rw [h1] at h
    simp only [Option.some_bind] at h
    cases h2 : setRows extGen eo.status_on perm with
    | none => rw [h2] at h; simp only [Option.none_bind] at h; cases h
    | some g1 =>
      rw [h2] at h
      simp only [Option.some_bind] at h
      exact ⟨perm, g1, rfl, h2, h⟩

/-- Inversion of `orErr`. -/
lemma orErr_ok {α : Type} {x : Option α} {msg : String} {a : α}
    (h : orErr x msg = Except.ok a) : x = some a := by
  unfold orErr at h
  split at h
  · rename_i b hb
    cases h
    rfl
  · cases h


/-- Inversion of a successful `Except` bind. -/
lemma bindE_ok {ε α β : Type} {x : Except ε α} {f : α → Except ε β} {b : β}
    (h : (x >>= f) = Except.ok b) : ∃ a, x = Except.ok a ∧ f a = Except.ok b := by
  cases x with
  | error e => simp [bind, Except.bind] at h
  | ok a => exact ⟨a, rfl, by simpa [bind, Except.bind] using h⟩

/-- Inversion of a successful whole-case gen computation. -/
lemma newGen_ok {mpc : Case} {o : OrderRec} {g : Mat}
    (h : newGen mpc o = Except.ok g) :
    ∃ ext eg, o.ext = some ext ∧ ext.lookup "gen" = some eg ∧
      restoreGen mpc.gen eg o.gen o.bus.i2e = some g := by
  simp only [newGen] at h
  obtain ⟨ext, hext, h⟩ := bindE_ok h
  obtain ⟨eg, heg, h⟩ := bindE_ok h
  simp only [extOf] at hext
  exact ⟨ext, eg, orErr_ok hext, orErr_ok heg, orErr_ok h⟩

/-- Inversion of a successful whole-case gencost computation when the
case carries a gencost table. -/
lemma newGencost_ok {mpc : Case} {o : OrderRec} {gc : Mat} {r : Option Mat}
    (hgc : mpc.gencost = some gc) (h : newGencost mpc o = Except.ok r) :
    ∃ ext e, o.ext = some ext ∧ ext.lookup "gencost" = some e ∧ r = some e := by
  unfold newGencost at h
  rw [hgc] at h
  obtain ⟨ext, hext, h⟩ := bindE_ok h
  obtain ⟨e, he, h⟩ := bindE_ok h
  simp only [extOf] at hext
  simp only [pure, Except.pure, Except.ok.injEq] at h
  exact ⟨ext, e, orErr_ok hext, orErr_ok he, h.symm⟩

/-- Inversion of a successful restore body: each per-table computation
succeeded with the corresponding field of the result, and the order
record was collapsed to external state with the `int` cache updated and
the `ext` snapshot deleted. -/
lemma restoreBody_ok {mpc : Case} {o : OrderRec} {c' : Case}
    (h : restoreBody mpc o = Except.ok c') :
    newBus mpc o = Except.ok c'.bus ∧
    newBranch mpc o = Except.ok c'.branch ∧
    newGen mpc o = Except.ok c'.gen ∧
    newGencost mpc o = Except.ok c'.gencost ∧
    newAreas mpc o = Except.ok c'.areas ∧
    newA mpc o = Except.ok c'.A ∧
    newN mpc o = Except.ok c'.N ∧
    c'.order = some { o with state := "e", int := newInt mpc o, ext := none } := by
  simp only [restoreBody] at h
  obtain ⟨nb, hnb, h⟩ := bindE_ok h
  obtain ⟨nbr, hnbr, h⟩ := bindE_ok h
  obtain ⟨ng, hng, h⟩ := bindE_ok h
  obtain ⟨ngc, hngc, h⟩ := bindE_ok h
  obtain ⟨na, hna, h⟩ := bindE_ok h
  obtain ⟨nA2, hnA2, h⟩ := bindE_ok h
  obtain ⟨nN2, hnN2, h⟩ := bindE_ok h
  simp only [pure, Except.pure, Except.ok.injEq] at h
  subst h
  exact ⟨hnb, hnbr, hng, hngc, hna, hnA2, hnN2, rfl⟩

/-- On an internal-state case the whole-case entry point runs the restore
body with no log output. -/
lemma int2extCase_int {mpc : Case} {o : OrderRec} (h1 : mpc.order = some o)
    (h2 : o.state = "i") : int2extCase mpc = ⟨[], restoreBody mpc o⟩ := by
  unfold int2extCase
  rw [h1]
  simp only [h2, if_pos]

/-- On a case whose order record is in any non-internal state the
whole-case entry point logs the already-external message and returns the
case unchanged. -/
lemma int2extCase_notInt {mpc : Case} {o : OrderRec} (h1 : mpc.order = some o)
    (h2 : o.state ≠ "i") :
    int2extCase mpc = ⟨[alreadyExternalMsg], Except.ok mpc⟩ := by
  unfold int2extCase
  rw [h1]
  simp only [h2, if_neg, if_false]

/-- Looking up the key just inserted returns the inserted value. -/
lemma lookupA_insertA_self (l : List (String × Mat)) (k : String) (v : Mat) :
    lookupA (insertA l k v) k = some v := by
  induction l with
  | nil => simp [insertA, lookupA]
  | cons kv rest ih =>
    obtain ⟨k0, v0⟩ := kv
    by_cases hk : k0 = k
    · subst hk
      simp [insertA, lookupA]
    · simp only [insertA, if_neg hk, lookupA]
      exact ih

/-- Inserting under a different key does not change a lookup. -/
lemma lookupA_insertA_other (l : List (String × Mat)) {k k' : String} (v : Mat)
    (hne : k' ≠ k) : lookupA (insertA l k' v) k = lookupA l k := by
  induction l with
  | nil => simp [insertA, lookupA, if_neg hne]
  | cons kv rest ih =>
    obtain ⟨k0, v0⟩ := kv
    by_cases hk : k0 = k'
    · subst hk
      simp only [insertA, if_pos rfl, lookupA, if_neg hne]
    · simp only [insertA, if_neg hk, lookupA]
      by_cases hk2 : k0 = k
      · rw [if_pos hk2, if_pos hk2]
      · rw [if_neg hk2, if_neg hk2]
        exact ih

/-- The updated `order.int` cache holds the pre-restore gencost table
whenever the case carries one. -/
lemma newInt_gencost {mpc : Case} {o : OrderRec} {g : Mat}
    (hg : mpc.gencost = some g) :
    (newInt mpc o).lookup "gencost" = some g := by
  unfold newInt
  rw [hg]
  simp only [Snap.lookup, Snap.insert]
  cases mpc.N <;> cases mpc.A <;> cases mpc.areas <;>
    simp [lookupA_insertA_self, lookupA_insertA_other]

/-- C5: for every case entering whole-case restore with an internal-state
order record, a successful restore returns a case whose order record has
state external and no longer carries the `ext` snapshot. -/
theorem restore_success_postcondition (mpc : Case) (o : OrderRec) (c' : Case)
    (h1 : mpc.order = some o) (h2 : o.state = "i")
    (h3 : (int2extCase mpc).out = Except.ok c') :
    (c'.order.map OrderRec.state) = some "e" ∧
    (c'.order.map OrderRec.ext) = some none := by
  rw [int2extCase_int h1 h2] at h3
  obtain ⟨-, -, -, -, -, -, -, hord⟩ := restoreBody_ok h3
  rw [hord]
  exact ⟨rfl, rfl⟩

/-- C5 witness: the postcondition holds for the concrete restored case
`mpcIOut` produced from `mpcI`. -/
theorem restore_success_postcondition_witness :
    (mpcIOut.order.map OrderRec.state) = some "e" ∧
    (mpcIOut.order.map OrderRec.ext) = some none :=
  restore_success_postcondition mpcI ordI mpcIOut rfl rfl rfl

/-- C4: restore on a case whose order record is already external logs the
already-external report and returns the case with tables and order record
unchanged; consequently a second restore call on a successfully restored
case reports the condition and changes nothing. -/
theorem restore_already_external_guard :
    (∀ mpc o, mpc.order = some o → o.state = "e" →
        int2extCase mpc = ⟨[alreadyExternalMsg], Except.ok mpc⟩) ∧
    (∀ mpc o c', mpc.order = some o → o.state = "i" →
        (int2extCase mpc).out = Except.ok c' →
        int2extCase c' = ⟨[alreadyExternalMsg], Except.ok c'⟩) := by
  constructor
  · intro mpc o h1 h2
    exact int2extCase_notInt h1 (by rw [h2]; decide)
  · intro mpc o c' h1 h2 h3
    rw [int2extCase_int h1 h2] at h3
    obtain ⟨-, -, -, -, -, -, -, hord⟩ := restoreBody_ok h3
    exact int2extCase_notInt hord (show ("e" : String) ≠ "i" by decide)

/-- C4 witness: the guard at the concrete already-external case
`extCaseW`, and the second call on the concrete restored case `mpcIOut`. -/
theorem restore_already_external_guard_witness :
    int2extCase extCaseW = ⟨[alreadyExternalMsg], Except.ok extCaseW⟩ ∧
    int2extCase mpcIOut = ⟨[alreadyExternalMsg], Except.ok mpcIOut⟩ :=
  ⟨restore_already_external_guard.1 extCaseW ordE rfl rfl,
   restore_already_external_guard.2 mpcI ordI mpcIOut rfl rfl rfl⟩

/-- The external snapshot dictionary of the witness order record `ordI`. -/
def extSnapI : Snap :=
  ⟨[("bus", [[10, 200],[20, 201],[30, 202]])
  , ("branch", [[10, 30, 700],[30, 20, 701]])
  , ("gen", [[10, 600],[30, 601]])
  , ("gencost", [[7, 7]])]⟩

/-- C10: in a successful whole-case restore of a case carrying a gencost
table, the returned gencost is exactly the cached `order.ext.gencost`
snapshot (no scatter, no identifier fix-up), and the pre-restore internal
gencost survives only as `order.int.gencost` — so internal-numbering
edits to gencost are absent from the restored table. -/
theorem gencost_snapshot_only (mpc : Case) (o : OrderRec) (c' : Case) (g : Mat)
    (extS : Snap) (h1 : mpc.order = some o) (h2 : o.state = "i")
    (hg : mpc.gencost = some g) (hext : o.ext = some extS)
    (h3 : (int2extCase mpc).out = Except.ok c') :
    c'.gencost = extS.lookup "gencost" ∧
    (c'.order.map fun o2 => o2.int.lookup "gencost") = some (some g) := by
  rw [int2extCase_int h1 h2] at h3
  obtain ⟨-, -, -, hngc, -, -, -, hord⟩ := restoreBody_ok h3
  obtain ⟨ext2, e, hext2, hle, hr⟩ := newGencost_ok hg hngc
  rw [hext] at hext2
  cases hext2
  constructor
  · rw [hr, hle]
  · rw [hord]
    show some ((newInt mpc o).lookup "gencost") = some (some g)
    rw [newInt_gencost hg]

/-- C10 witness: the concrete restored case `mpcIOut` carries the ext
snapshot gencost, and its order record caches the internal gencost. -/
theorem gencost_snapshot_only_witness :
    mpcIOut.gencost = extSnapI.lookup "gencost" ∧
    (mpcIOut.order.map fun o2 => o2.int.lookup "gencost") = some (some [[9, 9]]) :=
  gencost_snapshot_only mpcI ordI mpcIOut [[9, 9]] extSnapI rfl rfl rfl rfl rfl

/-- C2: in every successful whole-case restore from internal state, the
gen rows are placed at the positions `order.gen.status.on` taken from the
internal gen snapshot indexed by `order.gen.i2e`: for each `k`, every
column of the restored gen row at position `status.on[k]` other than the
generator-bus column (which is remapped afterwards) equals the same
column of internal snapshot row `i2e[k]` — a non-identity `gen.i2e`
restores the generators to their original relative order with payload
preserved. -/
theorem restore_gen_unpermuted (mpc : Case) (o : OrderRec) (c' : Case)
    (h1 : mpc.order = some o) (h2 : o.state = "i")
    (h3 : (int2extCase mpc).out = Except.ok c')
    (hnn : ∀ x ∈ o.gen.status_on, 0 ≤ x) (hnd : o.gen.status_on.Nodup)
    (k : Nat) (pI qI : Int)
    (hp : o.gen.status_on.get? k = some pI)
    (hq : o.gen.i2e.get? k = some qI) (hqn : 0 ≤ qI)
    (col : Nat) (hcol : col ≠ GEN_BUS) :
    ((c'.gen.get? pI.toNat).bind fun r => r.get? col) =
      ((mpc.gen.get? qI.toNat).bind fun r => r.get? col) := by
  rw [int2extCase_int h1 h2] at h3
  obtain ⟨-, -, hng, -, -, -, -, -⟩ := restoreBody_ok h3
  obtain ⟨ext, eg, hext, heg, hrg⟩ := newGen_ok hng
  obtain ⟨perm, g1, hperm, hscatter, hfix⟩ := restoreGen_some hrg
  have hpmem : pI ∈ o.gen.status_on := List.get?_mem hp
  have hp0 : 0 ≤ pI := hnn pI hpmem
  obtain ⟨p, hpres⟩ := setRows_resolves hscatter hp
  obtain ⟨hpeq, hplt⟩ := npIdx_pos_inv hp0 hpres
  subst hpeq
  have hdisj : ∀ k2 i2, o.gen.status_on.get? k2 = some i2 →
      npIdx eg.length i2 = some pI.toNat → k2 = k := by
    intro k2 i2 hk2 hres2
    have hi2nn : 0 ≤ i2 := hnn i2 (List.get?_mem hk2)
    obtain ⟨heq2, -⟩ := npIdx_pos_inv hi2nn hres2
    have hip : i2 = pI := by omega
    subst hip
    exact List.get?_inj (get?_lt_length hk2) hnd (hk2.trans hp.symm)
  have hg1 : g1.get? pI.toNat = perm.get? k := setRows_get hscatter hp hpres hdisj
  obtain ⟨r, hrow, hpermk⟩ := getRows_get hperm hq
  obtain ⟨q, hqres, hqget⟩ := getRow_some hrow
  obtain ⟨hqeq, -⟩ := npIdx_pos_inv hqn hqres
  subst hqeq
  have hfo := fixCol_other hfix pI.toNat col hcol
  rw [hfo, hg1, hpermk, hqget]

/-- C2 witness: in the concrete restore of `mpcI` (whose `gen.i2e` is the
non-identity permutation `[1,0]`), the payload column of the restored gen
row at position `status.on[0] = 0` equals the payload column of internal
snapshot row `i2e[0] = 1`. -/
theorem restore_gen_unpermuted_witness :
    ((mpcIOut.gen.get? (Int.toNat 0)).bind fun r => r.get? 1) =
      ((mpcI.gen.get? (Int.toNat 1)).bind fun r => r.get? 1) :=
  restore_gen_unpermuted mpcI ordI mpcIOut rfl rfl rfl (by decide) (by decide)
    0 0 1 rfl rfl (by decide) 1 (by decide)
